import Mathlib

/-!
Verification of the transcription pipeline of libaidamox against its
natural-language specification.  The Python sources are embedded shallowly:
the control flow of whisper_service.py, TTS/whisper_api.py and
TTS/speech_service.py is mirrored as Lean functions; the audio encoder, the
silence detector and the transcription backends (external collaborators) are
abstracted as oracle functions supplied as parameters; filesystem effects are
recorded as an explicit event trace; raised exceptions become Except values.
-/

namespace WhisperSpec

/-! ## Data model for the SizeBudgetSplitter (whisper_service.py, split_audio) -/

/-- Origin of a chunk in a plan: the fast path returns the source file itself,
the splitting path exports new chunk files. -/
inductive ChunkSrc
  | original
  | exported
deriving DecidableEq

/-- One chunk of a chunk plan: 0-based sequence index, the half-open span
from start to stop in the source timeline (ms), the encoded byte size of the
chunk file, and whether it is the source file or an exported chunk file. -/
structure Chunk where
  idx : Nat
  start : Nat
  stop : Nat
  size : Nat
  src : ChunkSrc
deriving DecidableEq

/-- Files handled by one pipeline run of whisper_service.py: the uploaded temp
file, the mp3 produced by convert_audio_to_mp3, the low-bitrate file produced
by compress_audio, and the chunk files written by split_audio. -/
inductive FileId
  | original
  | converted
  | compressed
  | chunkFile (i : Nat)
deriving DecidableEq

/-- Filesystem events recorded by the shallow embedding: a file is written at
a fresh path (re-exports overwrite the same path and are not new creations) or
a file is removed. -/
inductive FEvent
  | create (f : FileId)
  | delete (f : FileId)
deriving DecidableEq

/-- Outcome of split_audio: a chunk plan, the raised exception of line 165
(the spec's ChunkTooLarge), or the out-of-fuel sentinel of the fueled
embedding of the while loop.  C10 proves that the fuel supplied by
split_audio is always sufficient, so fuelOut never occurs. -/
inductive SplitOut
  | plan (cs : List Chunk)
  | chunkTooLarge
  | fuelOut
deriving DecidableEq

/-- Inner re-export loop of split_audio (lines 158-161): while the exported
chunk is still larger than max_bytes and the span exceeds 5000 ms, halve the
span (end = start + (end - start) // 2) and re-export.  enc start stop is the
deterministic encoded byte size of the slice from start to stop; fuel bounds
the iterations and is immaterial once fuel is at least stop - start, because
the span strictly shrinks every round. -/
def fitStopF (enc : Nat → Nat → Nat) (maxBytes start : Nat) : Nat → Nat → Nat
  | 0, stop => stop
  | fuel + 1, stop =>
    if maxBytes < enc start stop ∧ 5000 < stop - start then
      fitStopF enc maxBytes start fuel (start + (stop - start) / 2)
    else stop

/-- Outer chunking loop of split_audio (lines 151-169), fueled: while
start < duration_ms, cut the slice up to min(start + approx, dur), shrink it
with the inner loop, fail if it still exceeds max_bytes (the failing chunk
file is removed first, line 164), otherwise record the chunk and continue at
its end.  The second component is the trace of chunk-file writes/removals. -/
def splitLoopF (enc : Nat → Nat → Nat) (maxBytes dur approx : Nat) :
    Nat → Nat → Nat → SplitOut × List FEvent
  | 0, start, _ =>
    if start < dur then (.fuelOut, []) else (.plan [], [])
  | fuel + 1, start, i =>
    if start < dur then
      let end0 := min (start + approx) dur
      let stop := fitStopF enc maxBytes start (end0 - start) end0
      if maxBytes < enc start stop then
        (.chunkTooLarge, [.create (.chunkFile i), .delete (.chunkFile i)])
      else
        match splitLoopF enc maxBytes dur approx fuel stop (i + 1) with
        | (.plan cs, evs) =>
          (.plan (⟨i, start, stop, enc start stop, .exported⟩ :: cs),
            .create (.chunkFile i) :: evs)
        | (res, evs) => (res, .create (.chunkFile i) :: evs)
    else (.plan [], [])

/-- approx_chunk_ms of line 144: max(int(duration_ms * (max_bytes /
orig_size)) - 1000, 1000), with the float product modelled as exact integer
division (the difference never matters: only positivity is used). -/
def approxChunkMs (dur fileSize maxBytes : Nat) : Nat :=
  max (dur * maxBytes / fileSize - 1000) 1000

/-- split_audio (whisper_service.py lines 131-171).  Fast path: a file of at
most max_bytes is returned as a single chunk, the file itself, with no export.
Otherwise the fueled outer loop runs; dur units of fuel always suffice, since
every iteration advances start by at least one millisecond (C10). -/
def split_audio (enc : Nat → Nat → Nat) (fileSize dur maxBytes : Nat) :
    SplitOut × List FEvent :=
  if fileSize ≤ maxBytes then
    (.plan [⟨0, 0, dur, fileSize, .original⟩], [])
  else
    splitLoopF enc maxBytes dur (approxChunkMs dur fileSize maxBytes) dur 0 0

/-! ## TranscriptionCoordinator (whisper_service.py, transcribe_with_whisper) -/

/-- Per-chunk output of whisper_model.transcribe: the result dict carries a
text and a detected language; line 218 of whisper_service.py reads only the
text field. -/
structure TrOut where
  text : String
  language : Option String
deriving DecidableEq

/-- Chunk loop of transcribe_with_whisper (lines 201-218): iterate the plan in
order, transcribe each chunk, collect the texts, abort on the first error.
Also returns the list of chunks actually passed to the backend. -/
def runChunks (tr : Chunk → Except String TrOut) :
    List Chunk → List Chunk × Except String (List String)
  | [] => ([], .ok [])
  | c :: cs =>
    match tr c with
    | .error e => ([c], .error e)
    | .ok r =>
      match runChunks tr cs with
      | (calls, .ok ts) => (c :: calls, .ok (r.text :: ts))
      | (calls, .error e) => (c :: calls, .error e)

/-- Line 228: join the collected texts with a single space and strip the
surrounding whitespace. -/
def joinResults (ts : List String) : String :=
  (String.intercalate (" ") ts).trim

/-- Lines 201-228 as one stage: the chunk loop followed by the join. -/
def transcribeStage (tr : Chunk → Except String TrOut) (cs : List Chunk) :
    List Chunk × Except String String :=
  match runChunks tr cs with
  | (calls, .ok ts) => (calls, .ok (joinResults ts))
  | (calls, .error e) => (calls, .error e)

/-- MAX_FILE_SIZE (whisper_service.py lines 41-42): 25 MB in bytes. -/
def MAX_FILE_SIZE : Nat := 25 * 1024 * 1024

/-- Oracles and input data for one whisper_service.py pipeline run.  The
booleans abstract the probes of external collaborators (whisper model
loading, the mediainfo codec check of is_audio_conversion_required, pydub
conversion success); the sizes and duration describe the files involved; enc
is the chunk encoder and tr the per-chunk transcription backend. -/
structure PipeEnv where
  modelLoaded : Bool
  needsConv : Bool
  convOk : Bool
  convSize : Nat
  compressErr : Bool
  compSize : Nat
  origSize : Nat
  dur : Nat
  enc : Nat → Nat → Nat
  tr : Chunk → Except String TrOut

/-- Lines 186-196 of whisper_service.py: optional conversion to mp3 (writes a
new file; failure raises HTTPException, wrapped by the outer except), then
compress_audio, whose body re-encodes only when the current file exceeds
MAX_FILE_SIZE and whose exceptions are logged and swallowed, keeping the
previous path (compressErr).  Returns the file fed to split_audio, its byte
size, and the file writes performed. -/
def prepFile (env : PipeEnv) : Except String (FileId × Nat × List FEvent) :=
  if env.needsConv then
    if env.convOk then
      if env.compressErr then
        .ok (.converted, env.convSize, [.create .converted])
      else if MAX_FILE_SIZE < env.convSize then
        .ok (.compressed, env.compSize, [.create .converted, .create .compressed])
      else
        .ok (.converted, env.convSize, [.create .converted])
    else .error ("音频转换失败")
  else
    if env.compressErr then .ok (.original, env.origSize, [])
    else if MAX_FILE_SIZE < env.origSize then
      .ok (.compressed, env.compSize, [.create .compressed])
    else .ok (.original, env.origSize, [])

/-- Path on disk of a chunk: the fast-path chunk is the current source file
itself, exported chunks live at base_chunk_i. -/
def chunkPath (f : FileId) (c : Chunk) : FileId :=
  match c.src with
  | .original => f
  | .exported => .chunkFile c.idx

/-- finally-block of lines 219-226: delete every chunk file whose path differs
from the source file and which still exists (chunk paths are pairwise
distinct, so each file is removed at most once; missing files are
tolerated by the isfile guard and the inner try/except). -/
def cleanupEvents (f : FileId) (cs : List Chunk) : List FEvent :=
  (cs.filter fun c => chunkPath f c != f).map fun c => FEvent.delete (chunkPath f c)

/-- transcribe_with_whisper (lines 174-231): model-load guard, conversion and
compression, split, sequential chunk transcription with the cleanup finally,
join, and the outer except that wraps any error as HTTP 500 with detail
"转录失败: ...".  Returns the result, the file-event trace, and the chunks that
were sent to the backend. -/
def transcribe_with_whisper (env : PipeEnv) :
    Except String String × List FEvent × List Chunk :=
  if env.modelLoaded = false then (.error ("无法加载Whisper模型"), [], [])
  else
    match prepFile env with
    | .error e => (.error ("转录失败: " ++ e), [], [])
    | .ok (f, size, evPrep) =>
      match split_audio env.enc size env.dur MAX_FILE_SIZE with
      | (.fuelOut, evSplit) =>
        (.error ("fuel exhausted: unreachable, see C10"), evPrep ++ evSplit, [])
      | (.chunkTooLarge, evSplit) =>
        (.error ("转录失败: 音频块无法减小到最大文件大小以下。"), evPrep ++ evSplit, [])
      | (.plan cs, evSplit) =>
        match transcribeStage env.tr cs with
        | (calls, .ok t) =>
          (.ok t, evPrep ++ evSplit ++ cleanupEvents f cs, calls)
        | (calls, .error e) =>
          (.error ("转录失败: " ++ e), evPrep ++ evSplit ++ cleanupEvents f cs, calls)

/-- POST /transcribe of whisper_service.py (lines 259-302): the upload is
written to a temp file, transcribe_with_whisper runs, any error is wrapped
once more (the nested exception is rendered into the new detail string; the
exact rendering of the inner HTTPException is elided), and the finally-block
always deletes the temp file, which still exists at that point. -/
def transcribe_audio_ws (env : PipeEnv) :
    Except String String × List FEvent × List Chunk :=
  match transcribe_with_whisper env with
  | (.ok t, evs, calls) =>
    (.ok t, .create .original :: (evs ++ [.delete .original]), calls)
  | (.error e, evs, calls) =>
    (.error ("处理音频文件时出错: " ++ e),
      .create .original :: (evs ++ [.delete .original]), calls)

/-- The JSON body returned on success (lines 290-295) has exactly the keys
text and filename; the absence of a language key is modelled as
language = none. -/
structure TranscribeResponse where
  text : String
  filename : String
  language : Option String
deriving DecidableEq

/-- Response construction of the endpoint: wrap a successful transcript,
propagate errors. -/
def respond (env : PipeEnv) (filename : String) : Except String TranscribeResponse :=
  match (transcribe_audio_ws env).1 with
  | .ok t => .ok ⟨t, filename, none⟩
  | .error e => .error e

/-- Number of create events for file f in a trace. -/
def countCreate (f : FileId) (evs : List FEvent) : Nat :=
  evs.count (FEvent.create f)

/-- Number of delete events for file f in a trace. -/
def countDelete (f : FileId) (evs : List FEvent) : Nat :=
  evs.count (FEvent.delete f)

/-! ## AudioPreparer and upload gates (TTS/whisper_api.py) -/

/-- The two files of one whisper_api.py request: the saved upload and the
preprocessed wav written by preprocess_audio. -/
inductive APath
  | orig
  | proc
deriving DecidableEq

/-- Oracles and input data for one whisper_api.py request: the content-type
check outcome, the upload byte length, whether pydub managed to decode the
file, the decoded duration in ms, the two detect_leading_silence oracles
(threshold in dB to detected leading-silence ms, for the sound and its
reverse), and the backend resolved by the service manager. -/
structure ApiEnv where
  contentTypeOk : Bool
  contentLen : Nat
  decodeOk : Bool
  soundLen : Nat
  leadSilence : Int → Nat
  trailSilence : Int → Nat
  backend : APath → Except String String

/-- Length of the trim slice sound[a : n - b] of preprocess_audio line 138,
with Nat subtraction truncating at 0 like an empty Python slice. -/
def trimmedLen (n a b : Nat) : Nat :=
  n - b - a

/-- preprocess_audio (whisper_api.py lines 104-165) reduced to what the claims
speak about: on decode success, trim leading and trailing silence at the
default -50 dB threshold, but fall back to the whole sound when the trim
leaves under 1000 ms (lines 132-143); the mono/16 kHz conversion does not
change the duration and the result is exported to a new wav file.  On any
exception the original path is returned unchanged (lines 163-165).  Returns
the file used afterwards and its duration. -/
def preprocess_audio (env : ApiEnv) : APath × Nat :=
  if env.decodeOk then
    let a := env.leadSilence (-50)
    let b := env.trailSilence (-50)
    let t := trimmedLen env.soundLen a b
    if t < 1000 then (.proc, env.soundLen) else (.proc, t)
  else (.orig, env.soundLen)

/-- An HTTP error of whisper_api.py: status code and detail string. -/
structure ApiErr where
  status : Nat
  detail : String
deriving DecidableEq

/-- POST /transcribe of whisper_api.py (lines 209-298): content-type gate
(415), empty-payload gate (400, line 237), minimal-header gate of 44 bytes
(400, line 241), then preprocessing and the backend call, whose errors become
500.  The first component records which file, if any, was sent to the
backend. -/
def transcribe_audio_api (env : ApiEnv) : Option APath × Except ApiErr String :=
  if env.contentTypeOk = false then
    (none, .error ⟨415, "不支持的文件类型"⟩)
  else if env.contentLen = 0 then
    (none, .error ⟨400, "音频文件内容为空"⟩)
  else if env.contentLen < 44 then
    (none, .error ⟨400, "无效的音频文件格式"⟩)
  else
    match env.backend (preprocess_audio env).1 with
    | .ok t => (some (preprocess_audio env).1, .ok t)
    | .error e =>
      (some (preprocess_audio env).1, .error ⟨500, "转写音频时出错: " ++ e⟩)

/-! ## BackendRegistry (TTS/speech_service.py, SpeechServiceManager) -/

/-- SpeechServiceManager (speech_service.py lines 327-368): an insertion-
ordered dict of services and the currently selected service id. -/
structure SpeechServiceManager (B : Type) where
  services : List (String × B)
  current_service : Option String

/-- register_service (lines 334-337): dict assignment, replacing an existing
key in place or appending a new one. -/
def register_service {B : Type} (m : SpeechServiceManager B) (id : String)
    (s : B) : SpeechServiceManager B :=
  if m.services.any (fun p => p.1 == id) then
    { m with services := m.services.map fun p => if p.1 == id then (id, s) else p }
  else
    { m with services := m.services ++ [(id, s)] }

/-- Dict lookup self.services[sid]. -/
def lookupService {B : Type} (m : SpeechServiceManager B) (id : String) :
    Option B :=
  (m.services.find? fun p => p.1 == id).map (·.2)

/-- set_current_service (lines 339-347): False when the id is unknown,
otherwise record it as current and return True. -/
def set_current_service {B : Type} (m : SpeechServiceManager B) (id : String) :
    SpeechServiceManager B × Bool :=
  if (lookupService m id).isSome then
    ({ m with current_service := some id }, true)
  else (m, false)

/-- Python truthiness of an optional string: None and the empty string are
falsy, which is what both "service_id or self.current_service" and
"not sid" test in get_service. -/
def pyFalsy (s : Option String) : Bool :=
  match s with
  | none => true
  | some t => t == ""

/-- get_service (lines 349-356): sid = service_id or self.current_service;
raise ValueError when sid is falsy or unregistered; otherwise return the
service.  The real message also lists the available ids, elided here. -/
def get_service {B : Type} (m : SpeechServiceManager B)
    (service_id : Option String) : Except String B :=
  let sid := if pyFalsy service_id then m.current_service else service_id
  match sid with
  | none => .error ("未找到有效的语音服务")
  | some s =>
    if s == "" then .error ("未找到有效的语音服务")
    else
      match lookupService m s with
      | some b => .ok b
      | none => .error ("未找到有效的语音服务")

/-! ## Specification predicates -/

/-- The plan cs tiles the timeline from start up to dur contiguously, with no
gaps or overlaps, with consecutive sequence indices from i; used to state the
C1 invariants. -/
def covers (dur : Nat) : Nat → Nat → List Chunk → Prop
  | start, _, [] => start = dur
  | start, i, c :: cs =>
    c.start = start ∧ c.idx = i ∧ start < c.stop ∧ c.stop ≤ dur ∧
      covers dur c.stop (i + 1) cs


/-! ## Lemmas about the inner re-export loop -/

/-! ## Concrete instances used by counterexamples and witnesses -/

/-- Backend oracle failing exactly on the chunk with sequence index 1. -/
def trC2 : Chunk → Except String TrOut :=
  fun c => if c.idx = 1 then .error ("boom") else .ok ⟨"t", none⟩

/-- Backend oracle returning texts A, B, C (the first chunk also reports the
language en) keyed by sequence index. -/
def trC5 : Chunk → Except String TrOut :=
  fun c =>
    if c.idx = 0 then .ok ⟨"A", some "en"⟩
    else if c.idx = 1 then .ok ⟨"B", none⟩
    else .ok ⟨"C", none⟩

/-- Run whose single chunk succeeds with text A and reported language en:
model loaded, no conversion, 100-byte file of 2000 ms, fast-path split. -/
def envC5x : PipeEnv :=
  ⟨true, false, true, 0, false, 0, 100, 2000, fun _ _ => 0,
    fun _ => .ok ⟨"A", some "en"⟩⟩

/-- Run that converts the upload (creating the converted mp3), takes the
fast-path split, and then fails at the backend call. -/
def envC3x : PipeEnv :=
  ⟨true, true, true, 100, false, 0, 100, 500, fun _ _ => 0,
    fun _ => .error ("down")⟩

/-- Successful small run used as the C3 witness: no conversion, no
compression, fast-path split, backend succeeds. -/
def envC3w : PipeEnv :=
  ⟨true, false, true, 0, false, 0, 10, 50, fun _ _ => 0, fun _ => .ok ⟨"t", none⟩⟩

/-- Upload of 1000 bytes whose decoded sound lasts 7200 ms with 3000 ms of
silence detected on each side. -/
def envC6w : ApiEnv :=
  ⟨true, 1000, true, 7200, fun _ => 3000, fun _ => 3000, fun _ => .ok ("t")⟩

/-- Upload of 100 bytes that pydub fails to decode, with a backend that
transcribes it as hi. -/
def envC8x : ApiEnv :=
  ⟨true, 100, false, 5000, fun _ => 0, fun _ => 0, fun _ => .ok ("hi")⟩

/-- Empty upload. -/
def envC8w : ApiEnv :=
  ⟨true, 0, true, 5000, fun _ => 0, fun _ => 0, fun _ => .ok ("hi")⟩

/-- Registry holding a backend under the empty-string id and another under x,
with x selected, built through the manager API. -/
def mgrC7 : SpeechServiceManager String :=
  (set_current_service
    (register_service
      (register_service (⟨[], none⟩ : SpeechServiceManager String) "" "svcEmpty")
      "x" "svcX")
    "x").1


theorem fitStopF_le (enc : Nat → Nat → Nat) (maxBytes start : Nat) :
    ∀ fuel stop, fitStopF enc maxBytes start fuel stop ≤ stop := by
  intro fuel
  induction fuel with
  | zero => intro stop; simp [fitStopF]
  | succ fuel ih =>
    intro stop
    rw [fitStopF]
    split
    · rename_i h
      have h2 := ih (start + (stop - start) / 2)
      omega
    · exact le_refl _

theorem fitStopF_gt (enc : Nat → Nat → Nat) (maxBytes start : Nat) :
    ∀ fuel stop, start < stop → start < fitStopF enc maxBytes start fuel stop := by
  intro fuel
  induction fuel with
  | zero => intro stop h; simpa [fitStopF] using h
  | succ fuel ih =>
    intro stop h
    rw [fitStopF]
    split
    · rename_i hc
      exact ih _ (by omega)
    · exact h

theorem fitStopF_stops (enc : Nat → Nat → Nat) (maxBytes start stop : Nat)
    (h : enc start stop ≤ maxBytes ∨ stop - start ≤ 5000) :
    ∀ fuel, fitStopF enc maxBytes start fuel stop = stop := by
  intro fuel
  cases fuel with
  | zero => rfl
  | succ fuel =>
    rw [fitStopF]
    split
    · rename_i hc
      omega
    · rfl

theorem fitStopF_fits (enc : Nat → Nat → Nat) (maxBytes start : Nat) :
    ∀ fuel stop, stop - start ≤ fuel →
      enc start (fitStopF enc maxBytes start fuel stop) ≤ maxBytes ∨
        fitStopF enc maxBytes start fuel stop - start ≤ 5000 := by
  intro fuel
  induction fuel with
  | zero =>
    intro stop hf
    right
    simp [fitStopF]
    omega
  | succ fuel ih =>
    intro stop hf
    rw [fitStopF]
    split
    · rename_i hc
      exact ih _ (by omega)
    · rename_i hc
      rcases not_and_or.mp hc with h1 | h2
      · exact Or.inl (Nat.not_lt.mp h1)
      · exact Or.inr (Nat.not_lt.mp h2)

theorem fitStopF_fuel_indep (enc : Nat → Nat → Nat) (maxBytes start : Nat) :
    ∀ fuel1 fuel2 stop, stop - start ≤ fuel1 → stop - start ≤ fuel2 →
      fitStopF enc maxBytes start fuel1 stop = fitStopF enc maxBytes start fuel2 stop := by
  intro fuel1
  induction fuel1 with
  | zero =>
    intro fuel2 stop h1 h2
    rw [fitStopF, fitStopF_stops enc maxBytes start stop (Or.inr (by omega)) fuel2]
  | succ fuel1 ih =>
    intro fuel2 stop h1 h2
    by_cases hc : maxBytes < enc start stop ∧ 5000 < stop - start
    · cases fuel2 with
      | zero => omega
      | succ fuel2 =>
        rw [fitStopF, if_pos hc, fitStopF, if_pos hc]
        exact ih fuel2 _ (by omega) (by omega)
    · rcases not_and_or.mp hc with h | h
      · rw [fitStopF_stops enc maxBytes start stop (Or.inl (Nat.not_lt.mp h)),
          fitStopF_stops enc maxBytes start stop (Or.inl (Nat.not_lt.mp h))]
      · rw [fitStopF_stops enc maxBytes start stop (Or.inr (Nat.not_lt.mp h)),
          fitStopF_stops enc maxBytes start stop (Or.inr (Nat.not_lt.mp h))]

theorem fitStopF_step (enc : Nat → Nat → Nat) (maxBytes start stop fuel : Nat)
    (h : maxBytes < enc start stop ∧ 5000 < stop - start) :
    fitStopF enc maxBytes start (fuel + 1) stop =
      fitStopF enc maxBytes start fuel (start + (stop - start) / 2) := by
  rw [fitStopF, if_pos h]

/-! ## Lemmas about the outer chunking loop -/

theorem splitLoopF_zero (enc : Nat → Nat → Nat) (maxBytes dur approx start i : Nat) :
    splitLoopF enc maxBytes dur approx 0 start i =
      if start < dur then (.fuelOut, []) else (.plan [], []) := rfl

theorem splitLoopF_succ (enc : Nat → Nat → Nat) (maxBytes dur approx fuel start i : Nat) :
    splitLoopF enc maxBytes dur approx (fuel + 1) start i =
      if start < dur then
        (let end0 := min (start + approx) dur
         let stop := fitStopF enc maxBytes start (end0 - start) end0
         if maxBytes < enc start stop then
           (.chunkTooLarge, [.create (.chunkFile i), .delete (.chunkFile i)])
         else
           match splitLoopF enc maxBytes dur approx fuel stop (i + 1) with
           | (.plan cs, evs) =>
             (.plan (⟨i, start, stop, enc start stop, .exported⟩ :: cs),
               .create (.chunkFile i) :: evs)
           | (res, evs) => (res, .create (.chunkFile i) :: evs))
      else (.plan [], []) := rfl

theorem splitLoopF_spec (enc : Nat → Nat → Nat) (maxBytes dur approx : Nat)
    (hap : 1 ≤ approx) :
    ∀ fuel start i cs, start ≤ dur →
      (splitLoopF enc maxBytes dur approx fuel start i).1 = .plan cs →
      covers dur start i cs ∧ ∀ c ∈ cs, c.size ≤ maxBytes ∧ c.src = .exported := by
  intro fuel
  induction fuel with
  | zero =>
    intro start i cs hs h
    by_cases hlt : start < dur
    · simp [splitLoopF_zero, hlt] at h
    · simp [splitLoopF_zero, hlt] at h
      subst h
      refine ⟨by simpa [covers] using by omega, by simp⟩
  | succ fuel ih =>
    intro start i cs hs h
    by_cases hlt : start < dur
    · rw [splitLoopF_succ, if_pos hlt] at h
      simp only [] at h
      set end0 := min (start + approx) dur with hend0
      set stop := fitStopF enc maxBytes start (end0 - start) end0 with hstop
      have hstople : stop ≤ end0 := fitStopF_le enc maxBytes start _ end0
      have hstopgt : start < stop := by
        apply fitStopF_gt
        have : start < start + approx := by omega
        simp only [hend0]
        omega
      have hstopdur : stop ≤ dur := by
        have : end0 ≤ dur := min_le_right _ _
        omega
      by_cases hbig : maxBytes < enc start stop
      · rw [if_pos hbig] at h
        simp at h
      · rw [if_neg hbig] at h
        rcases hrec : splitLoopF enc maxBytes dur approx fuel stop (i + 1) with ⟨sres, evs⟩
        rw [hrec] at h
        cases sres with
        | plan cs2 =>
          simp only [] at h
          have hrec1 : (splitLoopF enc maxBytes dur approx fuel stop (i + 1)).1 = .plan cs2 := by
            rw [hrec]
          obtain ⟨hcov, hall⟩ := ih stop (i + 1) cs2 hstopdur hrec1
          have hcs : cs = ⟨i, start, stop, enc start stop, .exported⟩ :: cs2 := by
            cases h
            rfl
          subst hcs
          constructor
          · exact ⟨rfl, rfl, hstopgt, hstopdur, hcov⟩
          · intro c hc
            rcases List.mem_cons.mp hc with hc | hc
            · subst hc
              exact ⟨Nat.not_lt.mp hbig, rfl⟩
            · exact hall c hc
        | chunkTooLarge => simp at h
        | fuelOut => simp at h
    · rw [splitLoopF_succ, if_neg hlt] at h
      simp at h
      subst h
      refine ⟨by simpa [covers] using by omega, by simp⟩


theorem covers_sum (dur : Nat) :
    ∀ cs start i, covers dur start i cs →
      start ≤ dur ∧ (cs.map fun c => c.stop - c.start).sum = dur - start := by
  intro cs
  induction cs with
  | nil =>
    intro start i h
    simp [covers] at h
    simp [h]
  | cons c cs ih =>
    intro start i h
    obtain ⟨h1, h2, h3, h4, h5⟩ := h
    obtain ⟨ih1, ih2⟩ := ih c.stop (i + 1) h5
    constructor
    · omega
    · simp [ih2, h1]
      omega

theorem covers_idx_le (dur : Nat) :
    ∀ cs start i, covers dur start i cs → ∀ c ∈ cs, i ≤ c.idx := by
  intro cs
  induction cs with
  | nil => intro start i _ c hc; simp at hc
  | cons c cs ih =>
    intro start i h c2 hc2
    obtain ⟨h1, h2, h3, h4, h5⟩ := h
    rcases List.mem_cons.mp hc2 with hc | hc
    · subst hc; omega
    · have := ih c.stop (i + 1) h5 c2 hc
      omega

theorem covers_pairwise (dur : Nat) :
    ∀ cs start i, covers dur start i cs →
      List.Pairwise (· < ·) (cs.map fun c => c.idx) := by
  intro cs
  induction cs with
  | nil => intro start i _; simp
  | cons c cs ih =>
    intro start i h
    obtain ⟨h1, h2, h3, h4, h5⟩ := h
    simp only [List.map_cons, List.pairwise_cons]
    constructor
    · intro j hj
      simp only [List.mem_map] at hj
      obtain ⟨c2, hc2, hj⟩ := hj
      have := covers_idx_le dur cs c.stop (i + 1) h5 c2 hc2
      omega
    · exact ih c.stop (i + 1) h5

theorem splitLoopF_events (enc : Nat → Nat → Nat) (maxBytes dur approx : Nat) :
    ∀ fuel start i cs,
      (splitLoopF enc maxBytes dur approx fuel start i).1 = .plan cs →
      (splitLoopF enc maxBytes dur approx fuel start i).2 =
        cs.map fun c => FEvent.create (.chunkFile c.idx) := by
  intro fuel
  induction fuel with
  | zero =>
    intro start i cs h
    by_cases hlt : start < dur
    · simp [splitLoopF_zero, hlt] at h
    · simp [splitLoopF_zero, hlt] at h ⊢
      subst h
      simp
  | succ fuel ih =>
    intro start i cs h
    by_cases hlt : start < dur
    · rw [splitLoopF_succ, if_pos hlt] at h ⊢
      simp only [] at h ⊢
      set stop := fitStopF enc maxBytes start
        (min (start + approx) dur - start) (min (start + approx) dur) with hstop
      by_cases hbig : maxBytes < enc start stop
      · rw [if_pos hbig] at h
        simp at h
      · rw [if_neg hbig] at h ⊢
        rcases hrec : splitLoopF enc maxBytes dur approx fuel stop (i + 1) with ⟨sres, evs⟩
        rw [hrec] at h
        cases sres with
        | plan cs2 =>
          simp only [] at h ⊢
          have hevs : evs = cs2.map fun c => FEvent.create (.chunkFile c.idx) := by
            have hsnd := congrArg Prod.snd hrec
            simp only [] at hsnd
            rw [← hsnd]
            apply ih
            have hfst := congrArg Prod.fst hrec
            simp only [] at hfst
            rw [hfst]
          have hcs : cs = ⟨i, start, stop, enc start stop, .exported⟩ :: cs2 := by
            cases h; rfl
          subst hcs
          simp [hevs]
        | chunkTooLarge => simp at h
        | fuelOut => simp at h
    · rw [splitLoopF_succ, if_neg hlt] at h ⊢
      simp at h ⊢
      subst h
      simp

theorem splitLoopF_no_fuelOut (enc : Nat → Nat → Nat) (maxBytes dur approx : Nat)
    (hap : 1 ≤ approx) :
    ∀ fuel start i, dur - start ≤ fuel →
      (splitLoopF enc maxBytes dur approx fuel start i).1 ≠ .fuelOut := by
  intro fuel
  induction fuel with
  | zero =>
    intro start i hf
    have hlt : ¬ start < dur := by omega
    simp [splitLoopF_zero, hlt]
  | succ fuel ih =>
    intro start i hf
    by_cases hlt : start < dur
    · rw [splitLoopF_succ, if_pos hlt]
      simp only []
      set end0 := min (start + approx) dur with hend0
      set stop := fitStopF enc maxBytes start (end0 - start) end0 with hstop
      have hstopgt : start < stop := by
        apply fitStopF_gt
        simp only [hend0]
        omega
      by_cases hbig : maxBytes < enc start stop
      · rw [if_pos hbig]
        simp
      · rw [if_neg hbig]
        rcases hrec : splitLoopF enc maxBytes dur approx fuel stop (i + 1) with ⟨sres, evs⟩
        have := ih stop (i + 1) (by omega)
        rw [hrec] at this
        cases sres with
        | plan cs2 => simp
        | chunkTooLarge => simp
        | fuelOut => simp at this
    · rw [splitLoopF_succ, if_neg hlt]
      simp

theorem splitLoopF_fuel_indep (enc : Nat → Nat → Nat) (maxBytes dur approx : Nat)
    (hap : 1 ≤ approx) :
    ∀ fuel1 fuel2 start i, dur - start ≤ fuel1 → dur - start ≤ fuel2 →
      splitLoopF enc maxBytes dur approx fuel1 start i =
        splitLoopF enc maxBytes dur approx fuel2 start i := by
  intro fuel1
  induction fuel1 with
  | zero =>
    intro fuel2 start i h1 h2
    have hlt : ¬ start < dur := by omega
    cases fuel2 with
    | zero => rfl
    | succ fuel2 => rw [splitLoopF_zero, splitLoopF_succ, if_neg hlt, if_neg hlt]
  | succ fuel1 ih =>
    intro fuel2 start i h1 h2
    by_cases hlt : start < dur
    · cases fuel2 with
      | zero => omega
      | succ fuel2 =>
        rw [splitLoopF_succ, splitLoopF_succ, if_pos hlt, if_pos hlt]
        simp only []
        set end0 := min (start + approx) dur with hend0
        set stop := fitStopF enc maxBytes start (end0 - start) end0 with hstop
        have hstopgt : start < stop := by
          apply fitStopF_gt
          simp only [hend0]
          omega
        by_cases hbig : maxBytes < enc start stop
        · rw [if_pos hbig, if_pos hbig]
        · rw [if_neg hbig, if_neg hbig]
          rw [ih fuel2 stop (i + 1) (by omega) (by omega)]
    · cases fuel2 with
      | zero => rw [splitLoopF_zero, splitLoopF_succ, if_neg hlt, if_neg hlt]
      | succ fuel2 => rw [splitLoopF_succ, splitLoopF_succ, if_neg hlt, if_neg hlt]

theorem approxChunkMs_pos (dur fileSize maxBytes : Nat) :
    1 ≤ approxChunkMs dur fileSize maxBytes := by
  have := Nat.le_max_right (dur * maxBytes / fileSize - 1000) 1000
  simp only [approxChunkMs]
  omega

/-! ## Lemmas about split_audio, preparation, cleanup and counting -/

theorem split_audio_plan_cases (enc : Nat → Nat → Nat) (fileSize dur maxBytes : Nat)
    (cs : List Chunk) (h : (split_audio enc fileSize dur maxBytes).1 = .plan cs) :
    (fileSize ≤ maxBytes ∧ cs = [⟨0, 0, dur, fileSize, .original⟩]) ∨
      (¬ fileSize ≤ maxBytes ∧ covers dur 0 0 cs ∧
        ∀ c ∈ cs, c.size ≤ maxBytes ∧ c.src = .exported) := by
  by_cases hfs : fileSize ≤ maxBytes
  · left
    refine ⟨hfs, ?_⟩
    rw [split_audio, if_pos hfs] at h
    simp at h
    exact h.symm
  · right
    refine ⟨hfs, ?_⟩
    rw [split_audio, if_neg hfs] at h
    exact splitLoopF_spec enc maxBytes dur (approxChunkMs dur fileSize maxBytes)
      (approxChunkMs_pos dur fileSize maxBytes) dur 0 0 cs (Nat.zero_le dur) h
      |>.imp id id

theorem split_audio_events (enc : Nat → Nat → Nat) (fileSize dur maxBytes : Nat)
    (cs : List Chunk) (h : (split_audio enc fileSize dur maxBytes).1 = .plan cs) :
    (split_audio enc fileSize dur maxBytes).2 =
      (cs.filter fun c => c.src == ChunkSrc.exported).map
        fun c => FEvent.create (.chunkFile c.idx) := by
  by_cases hfs : fileSize ≤ maxBytes
  · rw [split_audio, if_pos hfs] at h ⊢
    simp at h ⊢
    rw [← h]
    simp
  · rw [split_audio, if_neg hfs] at h ⊢
    have hall := splitLoopF_spec enc maxBytes dur (approxChunkMs dur fileSize maxBytes)
      (approxChunkMs_pos dur fileSize maxBytes) dur 0 0 cs (Nat.zero_le dur) h |>.2
    have hev := splitLoopF_events enc maxBytes dur (approxChunkMs dur fileSize maxBytes)
      dur 0 0 cs h
    rw [hev]
    have hfilter : cs.filter (fun c => c.src == ChunkSrc.exported) = cs := by
      apply List.filter_eq_self.mpr
      intro c hc
      simp [(hall c hc).2]
    rw [hfilter]

theorem prepFile_cases (env : PipeEnv) (f : FileId) (size : Nat) (ev : List FEvent)
    (h : prepFile env = .ok (f, size, ev)) :
    (f = .original ∨ f = .converted ∨ f = .compressed) ∧
      (ev = [] ∨ ev = [.create .converted] ∨
        ev = [.create .converted, .create .compressed] ∨ ev = [.create .compressed]) := by
  rw [prepFile] at h
  split_ifs at h <;>
    simp only [Except.ok.injEq, Prod.mk.injEq] at h <;>
    obtain ⟨hf, _, hev⟩ := h <;> subst hf <;> subst hev <;> simp

theorem cleanupEvents_eq (f : FileId) (cs : List Chunk)
    (hf : ∀ j : Nat, f ≠ .chunkFile j) :
    cleanupEvents f cs =
      (cs.filter fun c => c.src == ChunkSrc.exported).map
        fun c => FEvent.delete (.chunkFile c.idx) := by
  have hfilter : ∀ c ∈ cs, (chunkPath f c != f) = (c.src == ChunkSrc.exported) := by
    intro c _
    rcases hsrc : c.src with _ | _
    · simp [chunkPath, hsrc]
    · simp [chunkPath, hsrc]
      exact fun hh => hf c.idx hh.symm
  rw [cleanupEvents, List.filter_congr hfilter]
  apply List.map_congr_left
  intro c hc
  have hsrc2 := (List.mem_filter.mp hc).2
  rcases h2 : c.src with _ | _
  · rw [h2] at hsrc2
    simp at hsrc2
  · simp [chunkPath, h2]

theorem count_create_map_create (j : Nat) (L : List Chunk) :
    (L.map fun c => FEvent.create (.chunkFile c.idx)).count
        (FEvent.create (.chunkFile j)) =
      (L.map fun c => c.idx).count j := by
  induction L with
  | nil => rfl
  | cons c L ih => simp [List.count_cons, ih]

theorem count_delete_map_delete (j : Nat) (L : List Chunk) :
    (L.map fun c => FEvent.delete (.chunkFile c.idx)).count
        (FEvent.delete (.chunkFile j)) =
      (L.map fun c => c.idx).count j := by
  induction L with
  | nil => rfl
  | cons c L ih => simp [List.count_cons, ih]

theorem count_create_map_create_other (f : FileId) (L : List Chunk)
    (hf : ∀ j : Nat, f ≠ .chunkFile j) :
    (L.map fun c => FEvent.create (.chunkFile c.idx)).count (FEvent.create f) = 0 := by
  rw [List.count_eq_zero]
  intro hmem
  simp only [List.mem_map] at hmem
  obtain ⟨c, _, hc⟩ := hmem
  exact hf c.idx (by injection hc with hh; exact hh.symm)

theorem count_delete_map_delete_other (f : FileId) (L : List Chunk)
    (hf : ∀ j : Nat, f ≠ .chunkFile j) :
    (L.map fun c => FEvent.delete (.chunkFile c.idx)).count (FEvent.delete f) = 0 := by
  rw [List.count_eq_zero]
  intro hmem
  simp only [List.mem_map] at hmem
  obtain ⟨c, _, hc⟩ := hmem
  exact hf c.idx (by injection hc with hh; exact hh.symm)

theorem count_delete_in_map_create (f : FileId) (L : List Chunk) :
    (L.map fun c => FEvent.create (.chunkFile c.idx)).count (FEvent.delete f) = 0 := by
  rw [List.count_eq_zero]
  intro hmem
  simp at hmem

theorem count_create_in_map_delete (f : FileId) (L : List Chunk) :
    (L.map fun c => FEvent.delete (.chunkFile c.idx)).count (FEvent.create f) = 0 := by
  rw [List.count_eq_zero]
  intro hmem
  simp at hmem

theorem count_idx_le_one (cs : List Chunk) (p : Chunk → Bool) (j : Nat)
    (hpw : List.Pairwise (· < ·) (cs.map fun c => c.idx)) :
    ((cs.filter p).map fun c => c.idx).count j ≤ 1 := by
  have hsub : List.Sublist ((cs.filter p).map fun c => c.idx) (cs.map fun c => c.idx) :=
    List.Sublist.map _ (List.filter_sublist cs)
  have hnd : (cs.map fun c => c.idx).Nodup :=
    hpw.imp fun hlt => Nat.ne_of_lt hlt
  have hnd2 : ((cs.filter p).map fun c => c.idx).Nodup := hnd.sublist hsub
  exact List.nodup_iff_count_le_one.mp hnd2 j

/-! ## Lemmas about the chunk transcription loop -/

theorem runChunks_ok_all (tr : Chunk → Except String TrOut) (cs : List Chunk)
    (ts : List String)
    (h : List.Forall₂ (fun c t => ∃ l, tr c = .ok ⟨t, l⟩) cs ts) :
    runChunks tr cs = (cs, .ok ts) := by
  induction h with
  | nil => rfl
  | cons hrel hall ih =>
    obtain ⟨l, hl⟩ := hrel
    rw [runChunks, hl, ih]

theorem runChunks_abort (tr : Chunk → Except String TrOut) (pre : List Chunk)
    (c : Chunk) (post : List Chunk) (e : String)
    (hpre : ∀ c2 ∈ pre, (tr c2).isOk = true) (hc : tr c = .error e) :
    runChunks tr (pre ++ c :: post) = (pre ++ [c], .error e) := by
  induction pre with
  | nil =>
    rw [List.nil_append, runChunks, hc]
    rfl
  | cons p ps ih =>
    have hp : (tr p).isOk = true := hpre p (List.mem_cons_self p ps)
    rcases hv : tr p with e2 | r
    · rw [hv] at hp
      simp [Except.isOk, Except.toBool] at hp
    · rw [List.cons_append, runChunks, hv,
        ih fun c2 hc2 => hpre c2 (List.mem_cons_of_mem p hc2)]
      rfl

/-! ## Claim C9: fast path of split_audio -/

/-- C9: for every asset whose byte size is at most maxBytes, split_audio
returns a plan with exactly one chunk that references the asset unchanged
(src = original, same byte size, spanning the whole timeline), and performs
no re-encode or file write (the event trace is empty). -/
theorem C9_split_fast_path (enc : Nat → Nat → Nat) (fileSize dur maxBytes : Nat)
    (h : fileSize ≤ maxBytes) :
    split_audio enc fileSize dur maxBytes =
      (.plan [⟨0, 0, dur, fileSize, .original⟩], []) := by
  rw [split_audio, if_pos h]

/-- C9 witness: a 5-byte asset under a 10-byte ceiling is returned unchanged
as a single original chunk with no file writes. -/
theorem C9_split_fast_path_witness :
    (5 : Nat) ≤ 10 ∧
      split_audio (fun _ _ => 0) 5 7 10 =
        (.plan [⟨0, 0, 7, 5, .original⟩], []) :=
  ⟨by decide, C9_split_fast_path (fun _ _ => 0) 5 7 10 (by decide)⟩

/-! ## Claim C1: invariants of returned chunk plans -/

/-- C1 counterexample: the claim quantifies over every input file and every
positive byte ceiling, but a decodable file with zero audio duration whose
byte size (2) exceeds the ceiling (1) makes split_audio return a plan with
zero chunks: the outer loop never runs, so the guarantee "chunk count at
least 1" fails as stated. -/
theorem C1_counterexample :
    (split_audio (fun _ _ => 0) 2 0 1).1 = SplitOut.plan [] ∧ (0 : Nat) < 1 := by
  constructor
  · decide
  · decide

/-- C1 (amended): for every input file with positive duration, whenever
split_audio returns a plan, the plan has at least one chunk, every chunk's
encoded byte size is at most maxBytes, the sequence indices are strictly
increasing, the chunks tile the source timeline contiguously from 0 to the
source duration with no gaps or overlaps (covers), and the chunk durations
sum to the source duration. -/
theorem C1_split_plan_invariants (enc : Nat → Nat → Nat)
    (fileSize dur maxBytes : Nat) (cs : List Chunk)
    (hdur : 0 < dur) (hmax : 0 < maxBytes)
    (h : (split_audio enc fileSize dur maxBytes).1 = .plan cs) :
    cs ≠ [] ∧ (∀ c ∈ cs, c.size ≤ maxBytes) ∧
      List.Pairwise (· < ·) (cs.map fun c => c.idx) ∧
      covers dur 0 0 cs ∧
      (cs.map fun c => c.stop - c.start).sum = dur := by
  have hcov : covers dur 0 0 cs ∧ ∀ c ∈ cs, c.size ≤ maxBytes := by
    rcases split_audio_plan_cases enc fileSize dur maxBytes cs h with ⟨hfs, hcs⟩ | ⟨_, hcv, hall⟩
    · subst hcs
      refine ⟨⟨rfl, rfl, hdur, le_refl dur, rfl⟩, ?_⟩
      intro c hc
      simp at hc
      subst hc
      exact hfs
    · exact ⟨hcv, fun c hc => (hall c hc).1⟩
  obtain ⟨hcv, hsize⟩ := hcov
  refine ⟨?_, hsize, covers_pairwise dur cs 0 0 hcv, hcv, ?_⟩
  · intro hnil
    subst hnil
    simp [covers] at hcv
    omega
  · have := (covers_sum dur cs 0 0 hcv).2
    omega

/-- C1 witness: a 5-byte file of duration 7 ms under a 10-byte ceiling yields
the single-chunk plan, which satisfies all the amended invariants. -/
theorem C1_split_plan_invariants_witness :
    (0 : Nat) < 7 ∧
      (([⟨0, 0, 7, 5, .original⟩] : List Chunk) ≠ [] ∧
        (∀ c ∈ ([⟨0, 0, 7, 5, .original⟩] : List Chunk), c.size ≤ 10) ∧
        List.Pairwise (· < ·)
          (([⟨0, 0, 7, 5, .original⟩] : List Chunk).map fun c => c.idx) ∧
        covers 7 0 0 [⟨0, 0, 7, 5, .original⟩] ∧
        (([⟨0, 0, 7, 5, .original⟩] : List Chunk).map
          fun c => c.stop - c.start).sum = 7) :=
  ⟨by decide,
    C1_split_plan_invariants (fun _ _ => 0) 5 7 10 [⟨0, 0, 7, 5, .original⟩]
      (by decide) (by decide) (by decide)⟩

/-! ## Claim C4: the halve-and-re-export backoff and its floor -/

/-- C4 counterexample: the claim says halving repeats until the chunk fits or
its duration drops strictly below 5 seconds.  With a constant encoder output
of 2 bytes against a 1-byte budget and an initial span of 10000 ms, the loop
halves once to exactly 5000 ms and then stops (the guard is span > 5000), so
it stops although the chunk neither fits (2 > 1) nor has duration below 5000
ms; the stated stopping condition is therefore not yet met. -/
theorem C4_counterexample :
    fitStopF (fun _ _ => 2) 1 0 10000 10000 = 5000 ∧
      ¬ ((2 : Nat) ≤ 1 ∨ (5000 : Nat) - 0 < 5000) := by
  constructor
  · decide
  · decide

/-- C4 (amended): the inner loop halves the span (floor division by 2) and
re-exports exactly while the chunk is oversize and its span strictly exceeds
5000 ms; it stops as soon as the chunk fits or the span is at most 5000 ms
(possibly exactly 5000 ms); given enough fuel (the span itself suffices) the
final chunk fits or spans at most 5000 ms; and when the final chunk is still
oversize the outer loop raises ChunkTooLarge after deleting the chunk file. -/
theorem C4_backoff_floor (enc : Nat → Nat → Nat) (maxBytes : Nat) :
    (∀ start stop fuel, maxBytes < enc start stop → 5000 < stop - start →
      fitStopF enc maxBytes start (fuel + 1) stop =
        fitStopF enc maxBytes start fuel (start + (stop - start) / 2)) ∧
    (∀ start stop fuel, enc start stop ≤ maxBytes ∨ stop - start ≤ 5000 →
      fitStopF enc maxBytes start fuel stop = stop) ∧
    (∀ start stop fuel, stop - start ≤ fuel →
      enc start (fitStopF enc maxBytes start fuel stop) ≤ maxBytes ∨
        fitStopF enc maxBytes start fuel stop - start ≤ 5000) ∧
    (∀ dur approx fuel start i, start < dur →
      maxBytes < enc start
        (fitStopF enc maxBytes start (min (start + approx) dur - start)
          (min (start + approx) dur)) →
      (splitLoopF enc maxBytes dur approx (fuel + 1) start i).1 = .chunkTooLarge) := by
  refine ⟨?_, ?_, ?_, ?_⟩
  · intro start stop fuel h1 h2
    exact fitStopF_step enc maxBytes start stop fuel ⟨h1, h2⟩
  · intro start stop fuel h
    exact fitStopF_stops enc maxBytes start stop h fuel
  · intro start stop fuel h
    exact fitStopF_fits enc maxBytes start fuel stop h
  · intro dur approx fuel start i hlt hbig
    rw [splitLoopF_succ, if_pos hlt]
    simp only []
    rw [if_pos hbig]

/-- C4 witness: with a constant 10-byte encoder output against a 5-byte
budget and a 7000 ms span, the loop halves once to 3500 ms and stops at the
floor, and an oversize final chunk makes the outer loop fail. -/
theorem C4_backoff_floor_witness :
    ((7000 : Nat) - 0 ≤ 7000 ∧
      ((fun _ _ => (10 : Nat)) 0 (fitStopF (fun _ _ => 10) 5 0 7000 7000) ≤ 5 ∨
        fitStopF (fun _ _ => 10) 5 0 7000 7000 - 0 ≤ 5000)) ∧
      ((0 : Nat) < 9000 ∧
        (splitLoopF (fun _ _ => 10) 5 9000 7000 (3 + 1) 0 0).1 = .chunkTooLarge) := by
  constructor
  · exact ⟨by decide,
      (C4_backoff_floor (fun _ _ => 10) 5).2.2.1 0 7000 7000 (by decide)⟩
  · exact ⟨by decide,
      (C4_backoff_floor (fun _ _ => 10) 5).2.2.2 9000 7000 3 0 0 (by decide) (by decide)⟩

/-! ## Claim C10: termination of split_audio -/

/-- C10: split_audio terminates.  In the fueled embedding: with the fuel that
split_audio itself supplies (the source duration) the outer loop never runs
out (each iteration strictly advances the start position), any larger fuel
computes the same result, and the inner loop is insensitive to any fuel of at
least the chunk span (the span strictly halves every round). -/
theorem C10_split_terminates (enc : Nat → Nat → Nat)
    (fileSize dur maxBytes : Nat) (hdur : 0 < dur) (hmax : 0 < maxBytes) :
    (split_audio enc fileSize dur maxBytes).1 ≠ .fuelOut ∧
      (∀ fuel, dur ≤ fuel →
        splitLoopF enc maxBytes dur (approxChunkMs dur fileSize maxBytes) fuel 0 0 =
          splitLoopF enc maxBytes dur (approxChunkMs dur fileSize maxBytes) dur 0 0) ∧
      (∀ start stop fuel, stop - start ≤ fuel →
        fitStopF enc maxBytes start fuel stop =
          fitStopF enc maxBytes start (stop - start) stop) := by
  refine ⟨?_, ?_, ?_⟩
  · rw [split_audio]
    split
    · simp
    · exact splitLoopF_no_fuelOut enc maxBytes dur _
        (approxChunkMs_pos dur fileSize maxBytes) dur 0 0 (by omega)
  · intro fuel hf
    exact splitLoopF_fuel_indep enc maxBytes dur _
      (approxChunkMs_pos dur fileSize maxBytes) fuel dur 0 0 (by omega) (by omega)
  · intro start stop fuel hf
    exact fitStopF_fuel_indep enc maxBytes start fuel (stop - start) stop hf (le_refl _)

/-- C10 witness: a 9-byte file of 4 ms duration under a 3-byte ceiling runs
the slow path and does not exhaust its fuel. -/
theorem C10_split_terminates_witness :
    (0 : Nat) < 4 ∧ (split_audio (fun _ _ => 0) 9 4 3).1 ≠ SplitOut.fuelOut :=
  ⟨by decide, (C10_split_terminates (fun _ _ => 0) 9 4 3 (by decide) (by decide)).1⟩

/-! ## Claim C2: abort on chunk failure -/

/-- C2: for every chunk plan, if every chunk before c succeeds and
transcribing c fails with e, the coordinator stops after c (the chunks it
passed to the backend are exactly the prefix up to and including c, so no
later chunk is transcribed), surfaces that chunk's error e, and returns no
partial text: the outcome is the bare error, with the texts of the earlier
successful chunks discarded. -/
theorem C2_abort_on_chunk_failure (tr : Chunk → Except String TrOut)
    (pre : List Chunk) (c : Chunk) (post : List Chunk) (e : String)
    (hpre : ∀ c2 ∈ pre, (tr c2).isOk = true) (hc : tr c = .error e) :
    transcribeStage tr (pre ++ c :: post) = (pre ++ [c], .error e) := by
  rw [transcribeStage, runChunks_abort tr pre c post e hpre hc]

/-- C2 witness: on a three-chunk plan whose second chunk fails with boom, the
coordinator calls the backend only on chunks 0 and 1 and returns the bare
error. -/
theorem C2_abort_on_chunk_failure_witness :
    trC2 ⟨1, 5, 9, 1, .exported⟩ = .error ("boom") ∧
      transcribeStage trC2
        ([⟨0, 0, 5, 1, .exported⟩] ++ ⟨1, 5, 9, 1, .exported⟩ ::
          [⟨2, 9, 12, 1, .exported⟩]) =
        ([⟨0, 0, 5, 1, .exported⟩] ++ [⟨1, 5, 9, 1, .exported⟩], .error ("boom")) :=
  ⟨rfl,
    C2_abort_on_chunk_failure trC2 [⟨0, 0, 5, 1, .exported⟩] ⟨1, 5, 9, 1, .exported⟩
      [⟨2, 9, 12, 1, .exported⟩] ("boom") (by decide) rfl⟩

/-! ## Claim C5: concatenation and the detected language -/

/-- C5 counterexample: a run whose (single-chunk) plan succeeds, the chunk
reporting language en, still yields a response whose language field is absent
(none): the claim that the detected language is taken from the first chunk
that reports one fails, because transcribe_with_whisper reads only the text
of each whisper result and the endpoint returns only text and filename. -/
theorem C5_counterexample :
    (split_audio envC5x.enc 100 2000 MAX_FILE_SIZE).1 =
        .plan [⟨0, 0, 2000, 100, .original⟩] ∧
      envC5x.tr ⟨0, 0, 2000, 100, .original⟩ = .ok ⟨"A", some "en"⟩ ∧
      (respond envC5x ("f.wav")).map (fun r => r.language) = .ok none ∧
      (none : Option String) ≠ some "en" := by
  refine ⟨by decide, rfl, rfl, by decide⟩

/-- C5 (amended): when every chunk of the plan succeeds, the coordinator
returns the chunk texts joined in sequence order with a single separating
space and with surrounding whitespace trimmed, and the endpoint response
carries no detected language (its language field is always none): per-chunk
detected languages are discarded. -/
theorem C5_join_no_language :
    (∀ (tr : Chunk → Except String TrOut) (cs : List Chunk) (ts : List String),
      List.Forall₂ (fun c t => ∃ l, tr c = .ok ⟨t, l⟩) cs ts →
      transcribeStage tr cs = (cs, .ok ((String.intercalate (" ") ts).trim))) ∧
    (∀ (env : PipeEnv) (fn t : String),
      (transcribe_audio_ws env).1 = .ok t → respond env fn = .ok ⟨t, fn, none⟩) := by
  constructor
  · intro tr cs ts h
    rw [transcribeStage, runChunks_ok_all tr cs ts h]
    rfl
  · intro env fn t h
    rw [respond, h]

/-- C5 witness: three chunks transcribed as A, B, C in sequence yield the
single-space join of A, B, C with surrounding whitespace trimmed. -/
theorem C5_join_no_language_witness :
    transcribeStage trC5
      [⟨0, 0, 5, 1, .exported⟩, ⟨1, 5, 9, 1, .exported⟩, ⟨2, 9, 12, 1, .exported⟩] =
      ([⟨0, 0, 5, 1, .exported⟩, ⟨1, 5, 9, 1, .exported⟩, ⟨2, 9, 12, 1, .exported⟩],
        .ok ((String.intercalate (" ") ["A", "B", "C"]).trim)) :=
  C5_join_no_language.1 trC5 _ ["A", "B", "C"]
    (List.Forall₂.cons ⟨some "en", rfl⟩
      (List.Forall₂.cons ⟨none, rfl⟩
        (List.Forall₂.cons ⟨none, rfl⟩ List.Forall₂.nil)))

/-! ## Claim C3: intermediate-artifact cleanup -/

/-- C3 counterexample: a run that converts the upload (writing the converted
mp3), reaches the backend and fails there, ends with the converted
intermediate still on disk: it is created once and never deleted, so the
claim that every intermediate (converted, compressed, chunked) is deleted by
the end of every run fails.  Only chunk files and the uploaded temp file are
cleaned up. -/
theorem C3_counterexample :
    ((transcribe_audio_ws envC3x).1).isOk = false ∧
      countCreate .converted (transcribe_audio_ws envC3x).2.1 = 1 ∧
      countDelete .converted (transcribe_audio_ws envC3x).2.1 = 0 := by
  refine ⟨by decide, by decide, by decide⟩

/-- C3 (amended): in every run whose split step succeeds, each chunk file
written by the splitter is deleted exactly once by the end of the run
(deletions match creations file by file, and each chunk path is written at
most once), regardless of whether transcription succeeds or fails; the
uploaded temp file is created and deleted exactly once; but the converted and
compressed intermediates are never deleted. -/
theorem C3_cleanup (env : PipeEnv) (f : FileId) (size : Nat) (ev : List FEvent)
    (cs : List Chunk)
    (hprep : prepFile env = .ok (f, size, ev))
    (hsplit : (split_audio env.enc size env.dur MAX_FILE_SIZE).1 = .plan cs) :
    (∀ j : Nat,
      countCreate (.chunkFile j) (transcribe_audio_ws env).2.1 ≤ 1 ∧
        countDelete (.chunkFile j) (transcribe_audio_ws env).2.1 =
          countCreate (.chunkFile j) (transcribe_audio_ws env).2.1) ∧
      countCreate .original (transcribe_audio_ws env).2.1 = 1 ∧
      countDelete .original (transcribe_audio_ws env).2.1 = 1 ∧
      countDelete .converted (transcribe_audio_ws env).2.1 = 0 ∧
      countDelete .compressed (transcribe_audio_ws env).2.1 = 0 := by
  obtain ⟨hfcase, hevcase⟩ := prepFile_cases env f size ev hprep
  have hfnc : ∀ j : Nat, f ≠ .chunkFile j := by
    rcases hfcase with h | h | h <;> subst h <;> intro j h2 <;> cases h2
  -- counts of the preparation events
  have hprepcnt : ∀ j : Nat,
      countCreate (.chunkFile j) ev = 0 ∧ countDelete (.chunkFile j) ev = 0 ∧
        countCreate .original ev = 0 ∧ countDelete .original ev = 0 ∧
        countDelete .converted ev = 0 ∧ countDelete .compressed ev = 0 := by
    intro j
    rcases hevcase with h | h | h | h <;> subst h <;>
      refine ⟨?_, ?_, ?_, ?_, ?_, ?_⟩ <;> simp [countCreate, countDelete]
  -- index multiset of the exported chunks
  have hpw : List.Pairwise (· < ·) (cs.map fun c => c.idx) := by
    rcases split_audio_plan_cases env.enc size env.dur MAX_FILE_SIZE cs hsplit with
      ⟨_, hcs⟩ | ⟨_, hcv, _⟩
    · subst hcs; simp
    · exact covers_pairwise env.dur cs 0 0 hcv
  rcases hm : env.modelLoaded with _ | _
  · -- model fails to load: the run only creates and deletes the temp file
    have hevs : (transcribe_audio_ws env).2.1 =
        [.create .original, .delete .original] := by
      rw [transcribe_audio_ws, transcribe_with_whisper, hm]
      simp
    rw [hevs]
    refine ⟨fun j => ⟨?_, ?_⟩, ?_, ?_, ?_, ?_⟩ <;> simp [countCreate, countDelete]
  · -- model loaded: full pipeline
    rcases hsp : split_audio env.enc size env.dur MAX_FILE_SIZE with ⟨sres, evS⟩
    have hsres : sres = .plan cs := by
      have h2 := congrArg Prod.fst hsp
      simp only [] at h2
      rw [← h2, hsplit]
    subst hsres
    have hevS : evS = (cs.filter fun c => c.src == ChunkSrc.exported).map
        fun c => FEvent.create (.chunkFile c.idx) := by
      have h2 := split_audio_events env.enc size env.dur MAX_FILE_SIZE cs hsplit
      rw [hsp] at h2
      exact h2
    have hcl := cleanupEvents_eq f cs hfnc
    rcases hst : transcribeStage env.tr cs with ⟨calls, res⟩
    have hevs : (transcribe_audio_ws env).2.1 =
        .create .original :: ((ev ++
          (((cs.filter fun c => c.src == ChunkSrc.exported).map
            fun c => FEvent.create (.chunkFile c.idx)) ++
          ((cs.filter fun c => c.src == ChunkSrc.exported).map
            fun c => FEvent.delete (.chunkFile c.idx)))) ++ [.delete .original]) := by
      rw [transcribe_audio_ws, transcribe_with_whisper, hm]
      simp only [Bool.true_eq_false, if_false]
      rw [hprep]
      simp only []
      rw [hsp]
      simp only []
      rw [hst]
      cases res <;> simp [hevS, hcl]
    rw [hevs]
    have hnoO : ∀ j : Nat, FileId.original ≠ FileId.chunkFile j := by
      intro j h; cases h
    have hnoCv : ∀ j : Nat, FileId.converted ≠ FileId.chunkFile j := by
      intro j h; cases h
    have hnoCp : ∀ j : Nat, FileId.compressed ≠ FileId.chunkFile j := by
      intro j h; cases h
    refine ⟨fun j => ⟨?_, ?_⟩, ?_, ?_, ?_, ?_⟩
    · -- each chunk file is created at most once
      have h1 := (hprepcnt j).1
      have h3 := count_idx_le_one cs (fun c => c.src == ChunkSrc.exported) j hpw
      simp only [countCreate] at h1 ⊢
      simp [List.count_cons, List.count_append, h1,
        count_create_map_create, count_create_in_map_delete]
      omega
    · -- deletions of each chunk file match its creations
      have h1 := (hprepcnt j).1
      have h2 := (hprepcnt j).2.1
      simp only [countCreate, countDelete] at h1 h2 ⊢
      simp [List.count_cons, List.count_append, h1, h2,
        count_create_map_create, count_create_in_map_delete,
        count_delete_map_delete, count_delete_in_map_create]
    · -- the uploaded temp file is created exactly once
      have h1 := (hprepcnt 0).2.2.1
      simp only [countCreate] at h1 ⊢
      simp [List.count_cons, List.count_append, h1,
        count_create_map_create_other .original
          (cs.filter fun c => c.src == ChunkSrc.exported) hnoO,
        count_create_in_map_delete]
    · -- and deleted exactly once, by the endpoint finally-block
      have h1 := (hprepcnt 0).2.2.2.1
      simp only [countDelete] at h1 ⊢
      simp [List.count_cons, List.count_append, h1,
        count_delete_in_map_create,
        count_delete_map_delete_other .original
          (cs.filter fun c => c.src == ChunkSrc.exported) hnoO]
    · -- the converted intermediate is never deleted
      have h1 := (hprepcnt 0).2.2.2.2.1
      simp only [countDelete] at h1 ⊢
      simp [List.count_cons, List.count_append, h1,
        count_delete_in_map_create,
        count_delete_map_delete_other .converted
          (cs.filter fun c => c.src == ChunkSrc.exported) hnoCv]
    · -- the compressed intermediate is never deleted
      have h1 := (hprepcnt 0).2.2.2.2.2
      simp only [countDelete] at h1 ⊢
      simp [List.count_cons, List.count_append, h1,
        count_delete_in_map_create,
        count_delete_map_delete_other .compressed
          (cs.filter fun c => c.src == ChunkSrc.exported) hnoCp]

/-- C3 witness: a small successful run (no conversion, fast-path split): the
temp file is created and deleted exactly once, the converted file is never
deleted, and chunk-file deletions match creations. -/
theorem C3_cleanup_witness :
    countDelete .original (transcribe_audio_ws envC3w).2.1 = 1 ∧
      countDelete .converted (transcribe_audio_ws envC3w).2.1 = 0 ∧
      countDelete (.chunkFile 0) (transcribe_audio_ws envC3w).2.1 =
        countCreate (.chunkFile 0) (transcribe_audio_ws envC3w).2.1 :=
  have h := C3_cleanup envC3w .original 10 [] [⟨0, 0, 50, 10, .original⟩]
    (by rfl) (by decide)
  ⟨h.2.2.1, h.2.2.2.1, (h.1 0).2⟩

/-! ## Claim C6: silence trim floor -/

/-- C6: on every decodable input the preparer trims the leading and trailing
silence detected at the -50 dB threshold, but when the trimmed duration would
fall below 1000 ms the trim is discarded and the original duration is kept;
in particular the result never drops below 1000 ms when the original lasts at
least 1000 ms. -/
theorem C6_trim_floor (env : ApiEnv) (hdec : env.decodeOk = true) :
    (trimmedLen env.soundLen (env.leadSilence (-50)) (env.trailSilence (-50)) < 1000 →
      (preprocess_audio env).2 = env.soundLen) ∧
    (1000 ≤ trimmedLen env.soundLen (env.leadSilence (-50)) (env.trailSilence (-50)) →
      (preprocess_audio env).2 =
        trimmedLen env.soundLen (env.leadSilence (-50)) (env.trailSilence (-50))) ∧
    (1000 ≤ env.soundLen → 1000 ≤ (preprocess_audio env).2) := by
  rw [preprocess_audio, if_pos hdec]
  simp only []
  by_cases ht : trimmedLen env.soundLen (env.leadSilence (-50)) (env.trailSilence (-50)) < 1000
  · rw [if_pos ht]
    exact ⟨fun _ => rfl, fun h => absurd h (by omega), fun h => h⟩
  · rw [if_neg ht]
    exact ⟨fun h => absurd h ht, fun _ => rfl, fun _ => Nat.not_lt.mp ht⟩

/-- C6 witness: 7200 ms of sound with 3000 ms of detected silence on each
side is trimmed to exactly 1200 ms, which stays above the 1-second floor. -/
theorem C6_trim_floor_witness :
    trimmedLen envC6w.soundLen (envC6w.leadSilence (-50)) (envC6w.trailSilence (-50)) = 1200 ∧
      (preprocess_audio envC6w).2 =
        trimmedLen envC6w.soundLen (envC6w.leadSilence (-50)) (envC6w.trailSilence (-50)) :=
  ⟨by decide, (C6_trim_floor envC6w rfl).2.1 (by decide)⟩

/-! ## Claim C7: backend resolution -/

/-- C7 counterexample: a backend registered under the empty-string id cannot
be resolved explicitly: because get_service evaluates service_id or
current_service with Python truthiness, resolve with the explicit id
empty-string returns the currently selected backend (svcX) instead of the
one registered under the empty string (svcEmpty). -/
theorem C7_counterexample :
    lookupService mgrC7 "" = some "svcEmpty" ∧
      mgrC7.current_service = some "x" ∧
      get_service mgrC7 (some "") = .ok ("svcX") ∧
      ("svcX" : String) ≠ "svcEmpty" := by
  refine ⟨rfl, rfl, rfl, by decide⟩

/-- C7 (amended): resolving with an explicit non-empty registered id returns
the backend registered under that id regardless of the current selection;
after select(x) succeeded for a non-empty x, resolving with no id returns x's
backend; and resolution fails when no usable backend is available: on an
empty registry (for every requested id), and when there is no current
selection and no id is supplied.  An explicit empty-string id is treated as
absent. -/
theorem C7_resolution (B : Type) :
    (∀ (m : SpeechServiceManager B) (id : String) (b : B), id ≠ "" →
      lookupService m id = some b → get_service m (some id) = .ok b) ∧
    (∀ (m m2 : SpeechServiceManager B) (x : String) (b : B), x ≠ "" →
      set_current_service m x = (m2, true) → lookupService m x = some b →
      get_service m2 none = .ok b) ∧
    (∀ (m : SpeechServiceManager B) (sid : Option String), m.services = [] →
      get_service m sid = .error ("未找到有效的语音服务")) ∧
    (∀ m : SpeechServiceManager B, m.current_service = none →
      get_service m none = .error ("未找到有效的语音服务")) := by
  refine ⟨?_, ?_, ?_, ?_⟩
  · intro m id b hne hlook
    have h1 : (id == "") = false := beq_eq_false_iff_ne.mpr hne
    rw [get_service]
    simp [pyFalsy, h1, hlook]
  · intro m m2 x b hne hset hlook
    have hsome : (lookupService m x).isSome = true := by rw [hlook]; rfl
    rw [set_current_service, if_pos hsome] at hset
    have hm2 : m2 = { m with current_service := some x } := by
      cases hset; rfl
    subst hm2
    have h1 : (x == "") = false := beq_eq_false_iff_ne.mpr hne
    have hlook2 : lookupService { m with current_service := some x } x = some b := hlook
    rw [get_service]
    simp [pyFalsy, h1, hlook2]
  · intro m sid hempty
    rw [get_service]
    rcases h : (if pyFalsy sid = true then m.current_service else sid) with _ | s
    · rfl
    · by_cases hs : (s == "") = true
      · simp [hs]
      · simp only [Bool.not_eq_true] at hs
        simp [hs, lookupService, hempty]
  · intro m hcur
    rw [get_service]
    simp [pyFalsy, hcur]

/-- C7 witness: in the two-service registry with x selected, resolving the
explicit id x yields svcX, and resolving with no id after the successful
select(x) also yields svcX. -/
theorem C7_resolution_witness :
    (("x" : String) ≠ "" ∧ get_service mgrC7 (some "x") = .ok ("svcX")) ∧
      get_service mgrC7 none = .ok ("svcX") :=
  ⟨⟨by decide, (C7_resolution String).1 mgrC7 "x" "svcX" (by decide) rfl⟩,
    (C7_resolution String).2.1
      (register_service
        (register_service (⟨[], none⟩ : SpeechServiceManager String) "" "svcEmpty")
        "x" "svcX")
      mgrC7 "x" "svcX" (by decide) rfl rfl⟩

/-! ## Claim C8: upload validation gates -/

/-- C8 counterexample: an upload of 100 bytes (passing the length gates) that
pydub fails to decode is not rejected: preprocess_audio swallows the decode
failure and returns the original path, so the backend is called on the
original file and the request succeeds, contradicting the claim that a decode
failure yields UnsupportedMedia with no transcription attempted. -/
theorem C8_counterexample :
    envC8x.decodeOk = false ∧
      transcribe_audio_api envC8x = (some .orig, .ok ("hi")) :=
  ⟨rfl, rfl⟩

/-- C8 (amended): with an accepted content type, an empty byte stream fails
with the 400 empty-payload error and a non-empty stream shorter than the
44-byte minimal header fails with the 400 invalid-format error, in both
cases without any transcription attempt (no backend call); but when decoding
fails during preprocessing the request is not rejected: the original upload
itself is handed to the backend. -/
theorem C8_upload_gates (env : ApiEnv) (hct : env.contentTypeOk = true) :
    (env.contentLen = 0 →
      transcribe_audio_api env = (none, .error ⟨400, "音频文件内容为空"⟩)) ∧
    (env.contentLen ≠ 0 → env.contentLen < 44 →
      transcribe_audio_api env = (none, .error ⟨400, "无效的音频文件格式"⟩)) ∧
    (env.decodeOk = false → 44 ≤ env.contentLen →
      (transcribe_audio_api env).1 = some .orig) := by
  refine ⟨?_, ?_, ?_⟩
  · intro h0
    rw [transcribe_audio_api]
    simp [hct, h0]
  · intro h0 h44
    rw [transcribe_audio_api]
    simp [hct, h0, h44]
  · intro hdec h44
    rw [transcribe_audio_api]
    have h0 : ¬ env.contentLen = 0 := by omega
    have hlt : ¬ env.contentLen < 44 := by omega
    have hpre : (preprocess_audio env).1 = .orig := by
      rw [preprocess_audio, if_neg (by simp [hdec])]
    simp only [hct, h0, hlt, hpre]
    simp
    rcases hb : env.backend .orig with e | t <;> simp [hb]

/-- C8 witness: the empty upload is rejected with the 400 empty-payload
error and no backend call. -/
theorem C8_upload_gates_witness :
    envC8w.contentLen = 0 ∧
      transcribe_audio_api envC8w = (none, .error ⟨400, "音频文件内容为空"⟩) :=
  ⟨rfl, (C8_upload_gates envC8w rfl).1 rfl⟩

end WhisperSpec
